import Mathlib

/-!
Verification of the `tmpl` repository's core function library and archive
extraction logic, via a shallow embedding of the Go source into Lean.

The embedding models Go's dynamically-typed template values
(`interface{}`) as the inductive type `GoVal`, Go maps
(`map[string]interface{}`) as association lists with unique keys, Go
strings as Lean strings (operated on char-by-char; all relevant inputs
are ASCII, where Go's byte-wise operations and the char-wise model
coincide), and Go's 64-bit integers as `Int` with explicit wrapping
where overflow matters.  Fallible operations (including Go runtime
panics) are modelled with `Except`/`Option`.
-/

set_option autoImplicit false

namespace Tmpl

/-- Model of a Go `interface{}` value as used by the template function
library.  `vInt` stands for Go's signed integer kinds (`int`/`int64`/...,
which every function embedded here treats identically), `vUint` for the
unsigned kinds, and `vFloat` for `float64` (every finite double is a
rational; NaN/infinities are outside the model).  `vMap` is
`map[string]interface{}` as an association list with unique keys. -/
inductive GoVal where
  | vNil
  | vBool (b : Bool)
  | vInt (n : ℤ)
  | vUint (n : ℕ)
  | vFloat (q : ℚ)
  | vStr (s : String)
  | vList (xs : List GoVal)
  | vMap (m : List (String × GoVal))

/-- A Go `map[string]interface{}`: association list, keys unique. -/
abbrev GoMap := List (String × GoVal)

/-- Go map read `m[k]` (comma-ok form): the value bound to `k`, if any. -/
def mapLookup : GoMap → String → Option GoVal
  | [], _ => none
  | (k', v') :: rest, k => if k' = k then some v' else mapLookup rest k

/-- Go map assignment `m[k] = v`: overwrite in place, or bind a new key. -/
def setKey : GoMap → String → GoVal → GoMap
  | [], k, v => [(k, v)]
  | (k', v') :: rest, k, v =>
      if k' = k then (k, v) :: rest else (k', v') :: setKey rest k v

/-- Reinterpretation `int64(u)` of a `uint64` value (two's complement). -/
def uintToInt64 (n : ℕ) : ℤ :=
  if n ≥ 2 ^ 63 then (n : ℤ) - 2 ^ 64 else (n : ℤ)

/-- Wrap an integer into the `int64` range (two's complement), as Go's
defined overflow behaviour for integer arithmetic does. -/
def wrapInt64 (x : ℤ) : ℤ :=
  (x + 2 ^ 63) % 2 ^ 64 - 2 ^ 63

/-- Truncation of a rational toward zero (Go `int64(f)` for in-range `f`). -/
def truncRat (q : ℚ) : ℤ :=
  if 0 ≤ q then q.floor else q.ceil

/-- Go conversion `int64(f)` from `float64`.  Out-of-range values produce
the x86-64 "integer indefinite" value `math.MinInt64` (Go leaves the
out-of-range case implementation-defined; this is the amd64 behaviour). -/
def int64OfFloat (q : ℚ) : ℤ :=
  let t := truncRat q
  if t < -(2 ^ 63) ∨ t > 2 ^ 63 - 1 then -(2 ^ 63) else t

/-- Digits-only string to number: `some n` when the (nonempty) character
list is all decimal digits. -/
def digitsToNat : List Char → Option ℕ
  | [] => none
  | [c] => if c.isDigit then some (c.toNat - '0'.toNat) else none
  | c :: rest =>
      if c.isDigit then
        match digitsToNat rest with
        | some n => some ((c.toNat - '0'.toNat) * 10 ^ rest.length + n)
        | none => none
      else none

/-- `strconv.ParseInt(s, 10, 64)`, keeping only the returned integer (the
source discards the error): 0 on a syntax error, and the clamped
`math.MaxInt64`/`math.MinInt64` on a range error. -/
def goParseInt64 (s : String) : ℤ :=
  match s.data with
  | [] => 0
  | c :: rest =>
      let signDigits : Bool × List Char :=
        if c = '-' then (true, rest)
        else if c = '+' then (false, rest)
        else (false, c :: rest)
      match digitsToNat signDigits.2 with
      | none => 0
      | some n =>
          let v : ℤ := if signDigits.1 then -(n : ℤ) else (n : ℤ)
          if v > 2 ^ 63 - 1 then 2 ^ 63 - 1
          else if v < -(2 ^ 63) then -(2 ^ 63) else v

/-- Embeds `toInt64` (RELEASE.md, conversion functions): type-switched
best-effort coercion of an opaque value to `int64`; the default arm
yields 0. -/
def toInt64 : GoVal → ℤ
  | .vInt n => n
  | .vUint n => uintToInt64 n
  | .vFloat q => int64OfFloat q
  | .vStr s => goParseInt64 s
  | _ => 0

/-- Embeds `toInt`: `int(toInt64(v))`, an identity on 64-bit targets. -/
def toInt (v : GoVal) : ℤ :=
  toInt64 v

/-- Embeds the `div` template function: coerce both operands, return 0 on
a zero divisor, otherwise Go's truncated division (with the defined
`MinInt64 / -1` two's-complement wrap). -/
def divGo (a b : GoVal) : ℤ :=
  let bv := toInt64 b
  if bv = 0 then 0 else wrapInt64 (Int.tdiv (toInt64 a) bv)

/-- Embeds the `mod` template function: coerce both operands, return 0 on
a zero divisor, otherwise Go's truncated remainder. -/
def modGo (a b : GoVal) : ℤ :=
  let bv := toInt64 b
  if bv = 0 then 0 else Int.tmod (toInt64 a) bv

/-- Embeds `slice` (RELEASE.md): generic sequence slicing with optional
start/end indices coerced through `toInt`.  Non-sequences yield Go `nil`
(`vNil`); an out-of-range start or an empty range yields an empty
sequence. -/
def sliceGo (list : GoVal) (indices : List GoVal) : GoVal :=
  match list with
  | .vList xs =>
      let length : ℤ := xs.length
      match indices with
      | [] => .vList xs
      | i0 :: restIdx =>
          let start1 := toInt i0
          let start2 := if start1 < 0 then length + start1 else start1
          let start3 := if start2 < 0 then 0 else start2
          if start3 ≥ length then .vList []
          else
            let end1 :=
              match restIdx with
              | [] => length
              | e0 :: _ =>
                  let e := toInt e0
                  if e < 0 then length + e else e
            let end2 := if end1 > length then length else end1
            if end2 ≤ start3 then .vList []
            else .vList ((xs.take end2.toNat).drop start3.toNat)
  | _ => .vNil

/-- Python-style half-open slicing, written from the specification's
words for comparison with `sliceGo`: resolve negative indices from the
end, clamp both into `[0, len]`, extract the half-open range (empty when
start ≥ end). -/
def resolveIdx (len x : ℤ) : ℤ :=
  if x < 0 then len + x else x

/-- Clamp an index into `[0, len]` (specification's words). -/
def clampIdx (len x : ℤ) : ℤ :=
  max 0 (min len x)

/-- The specification's Python-style slice `seq[s:e]`. -/
def pythonSlice (xs : List GoVal) (s e : ℤ) : List GoVal :=
  let len : ℤ := xs.length
  let s' := clampIdx len (resolveIdx len s)
  let e' := clampIdx len (resolveIdx len e)
  (xs.take e'.toNat).drop s'.toNat

/-- Go `strings.Split(s, sep)` for a one-character separator (the only
form the sources use: `"."` in `dig`, `"/"` in `extractTar`): split
around every occurrence of the separator; the empty string splits to
`[""]`. -/
def splitOnChar (sep : Char) : List Char → List (List Char)
  | [] => [[]]
  | c :: rest =>
      let acc := splitOnChar sep rest
      if c = sep then [] :: acc
      else
        match acc with
        | g :: gs => (c :: g) :: gs
        | [] => [[c]]

/-- Go `strings.Join(parts, sep)` for a one-character separator. -/
def joinChar (sep : Char) : List (List Char) → List Char
  | [] => []
  | [x] => x
  | x :: y :: rest => x ++ sep :: joinChar sep (y :: rest)

/-- Embeds the loop body of `dig` (RELEASE.md): walk the already-split
key path left to right; a missing key yields the `key %s not found`
error; a present non-mapping value is returned at once (even mid-path);
when the segments run out the mapping reached is returned. -/
def digList : List String → GoMap → Except String GoVal
  | [], cur => .ok (.vMap cur)
  | p :: rest, cur =>
      match mapLookup cur p with
      | some val =>
          match val with
          | .vMap nextDict => digList rest nextDict
          | _ => .ok val
      | none => .error ("key " ++ p ++ " not found")

/-- Embeds `dig(ps, dict)`: split the dot-separated path, then traverse. -/
def dig (ps : String) (dict : GoMap) : Except String GoVal :=
  digList ((splitOnChar '.' ps.data).map List.asString) dict

/-- Key-path traversal written from the amended specification's words,
for comparison with `dig`: the final segment's value is returned
whatever its kind; an intermediate segment must resolve to a nested
mapping to continue — if it resolves to a non-mapping value, that value
is returned immediately and the remaining segments are ignored; a
missing key (anywhere) fails with `key %s not found`. -/
def digSpec : List String → GoMap → Except String GoVal
  | [], cur => .ok (.vMap cur)
  | [p], cur =>
      match mapLookup cur p with
      | some val => .ok val
      | none => .error ("key " ++ p ++ " not found")
  | p :: q :: rest, cur =>
      match mapLookup cur p with
      | some (.vMap nextDict) => digSpec (q :: rest) nextDict
      | some val => .ok val
      | none => .error ("key " ++ p ++ " not found")

/-- The chunking loop of `chunk`: successive groups of `size` elements
(`size ≥ 1`); the fuel argument (instantiated with the list's length)
only makes the recursion structural. -/
def chunksAux (size : ℕ) : ℕ → List GoVal → List (List GoVal)
  | 0, _ => []
  | _, [] => []
  | fuel + 1, x :: xs =>
      (x :: xs).take size :: chunksAux size fuel ((x :: xs).drop size)

/-- Embeds `chunk(size, list)` (RELEASE.md): `nil` (modelled as `[]`)
for non-sequences and for `size ≤ 0`, otherwise groups of `size` with a
shorter final group. -/
def chunkGo (size : ℤ) (list : GoVal) : List (List GoVal) :=
  match list with
  | .vList xs => if size ≤ 0 then [] else chunksAux size.toNat xs.length xs
  | _ => []

/-- Embeds `mustChunk(size, list)`: `return chunk(size, list), nil` —
the error component (second) is always `none`. -/
def mustChunk (size : ℤ) (list : GoVal) : List (List GoVal) × Option String :=
  (chunkGo size list, none)

/-- One `for k, v := range src { dst[k] = v }` pass of `merge`. -/
def setAll (dst : GoMap) (src : GoMap) : GoMap :=
  src.foldl (fun d p => setKey d p.1 p.2) dst

/-- The pure content of `merge(dst, srcs...)`: fold every source into
the destination, left to right. -/
def mergeMaps (dst : GoMap) (srcs : List GoMap) : GoMap :=
  srcs.foldl setAll dst

/-- A heap of Go maps: Go maps are reference types, so mutation through
one reference is observable through every alias.  References are bare
naturals. -/
abbrev MapHeap := ℕ → Option GoMap

/-- Embeds `merge(dst, srcs...)` with Go's reference semantics: read the
destination and source maps out of the heap, overwrite the destination's
referent in place, and return the same reference that was passed in. -/
def mergeGo (h : MapHeap) (dst : ℕ) (srcRefs : List ℕ) : MapHeap × ℕ :=
  let srcs := srcRefs.map (fun r => (h r).getD [])
  let merged := mergeMaps ((h dst).getD []) srcs
  (fun r => if r = dst then some merged else h r, dst)

/-- Per-key result of left-to-right key overwrite, written from the
specification's words: scan the sources left to right, each binding of
`k` overriding the previous; fall back to the destination's binding. -/
def overrideLookup (dst : GoMap) (srcs : List GoMap) (k : String) : Option GoVal :=
  srcs.foldl
    (fun acc m =>
      match mapLookup m k with
      | some v => some v
      | none => acc)
    (mapLookup dst k)

/-- A two-reference heap used to exercise `mergeGo` on the
specification's own example (`merge({"a":1}, {"a":2,"b":3})`). -/
def exampleHeap : MapHeap := fun r =>
  if r = 0 then some [("a", GoVal.vInt 1)]
  else if r = 1 then some [("a", GoVal.vInt 2), ("b", GoVal.vInt 3)]
  else none

/-- Whether a value can be a Go map key: sequences and mappings are
unhashable dynamic types, every scalar kind here is hashable. -/
def hashable : GoVal → Bool
  | .vList _ => false
  | .vMap _ => false
  | _ => true

/-- Go `interface{}` equality (`==` on interface values) restricted to
the hashable kinds of the model: same kind and equal value.  (Within the
model each scalar has a single dynamic kind.) -/
def goEq : GoVal → GoVal → Bool
  | .vNil, .vNil => true
  | .vBool a, .vBool b => a = b
  | .vInt a, .vInt b => a = b
  | .vUint a, .vUint b => a = b
  | .vFloat a, .vFloat b => a = b
  | .vStr a, .vStr b => a = b
  | _, _ => false

/-- The loop of `uniq`, with the `seen` map modelled as the list of keys
inserted so far.  Reading `seen[val]` with an unhashable key is a Go
runtime panic (`hash of unhashable type`), modelled as an error. -/
def uniqAux (seen : List GoVal) : List GoVal → Except String (List GoVal)
  | [] => .ok []
  | x :: xs =>
      if hashable x then
        if seen.any (fun s => goEq s x) then uniqAux seen xs
        else
          match uniqAux (x :: seen) xs with
          | .ok r => .ok (x :: r)
          | .error e => .error e
      else .error "hash of unhashable type"

/-- Embeds `uniq(list)` (RELEASE.md): `nil` (modelled as `[]`) for
non-sequences; otherwise first-occurrence deduplication through a
`map[interface{}]bool`, which panics on unhashable elements. -/
def uniqGo : GoVal → Except String (List GoVal)
  | .vList xs => uniqAux [] xs
  | _ => .ok []

/-- First-occurrence-wins deduplication by `goEq`, written from the
amended specification's words, for comparison with `uniqGo`. -/
def dedupSpec : List GoVal → List GoVal
  | [] => []
  | x :: xs => x :: (dedupSpec xs).filter (fun y => ! goEq x y)

/-- Embeds the path-stripping step of `extractTar` (main.go): split the
entry name on the separator, clamp the strip count to the component
count minus one, drop that many leading components and rejoin.  (A
negative strip count makes the Go code panic on the slice expression;
the claims only concern counts ≥ 0.) -/
def extractName (stripN : ℤ) (name : String) : String :=
  let parts := splitOnChar '/' name.data
  let toStrip : ℤ := if stripN ≥ (parts.length : ℤ) then (parts.length : ℤ) - 1 else stripN
  if (parts.length : ℤ) > toStrip then (joinChar '/' (parts.drop toStrip.toNat)).asString
  else name

/-! ### The function registry (sprig function tables)

The two tables bind template-function names to Go function values.  The
model identifies each Go function value by a string: named functions by
their Go identifier (qualified for library functions), and each
anonymous function literal by a `func:`-tag unique to its map entry
(every literal in the source is a distinct function value). -/

/-- Embeds `genericFuncMap` (RELEASE.md): the full name → function
table, entry for entry in source order. -/
def genericFuncMap : List (String × String) := [
  ("hello", "func:hello"),
  -- Date functions
  ("ago", "dateAgo"),
  ("date", "date"),
  ("date_in_zone", "dateInZone"),
  ("date_modify", "dateModify"),
  ("dateInZone", "dateInZone"),
  ("dateModify", "dateModify"),
  ("duration", "duration"),
  ("durationRound", "durationRound"),
  ("htmlDate", "htmlDate"),
  ("htmlDateInZone", "htmlDateInZone"),
  ("must_date_modify", "mustDateModify"),
  ("mustDateModify", "mustDateModify"),
  ("mustToDate", "mustToDate"),
  ("now", "time.Now"),
  ("toDate", "toDate"),
  ("unixEpoch", "unixEpoch"),
  -- String functions
  ("abbrev", "abbrev"),
  ("abbrevboth", "abbrevboth"),
  ("trunc", "trunc"),
  ("trim", "strings.TrimSpace"),
  ("upper", "strings.ToUpper"),
  ("lower", "strings.ToLower"),
  ("title", "titleFunc"),
  ("untitle", "untitle"),
  ("substr", "substring"),
  ("repeat", "func:repeat"),
  ("trimall", "func:trimall"),
  ("trimAll", "func:trimAll"),
  ("trimSuffix", "func:trimSuffix"),
  ("trimPrefix", "func:trimPrefix"),
  ("nospace", "deleteWhiteSpace"),
  ("initials", "initials"),
  ("randAlphaNum", "randAlphaNumeric"),
  ("randAlpha", "randAlpha"),
  ("randAscii", "randAscii"),
  ("randNumeric", "randNumeric"),
  ("swapcase", "swapCase"),
  ("shuffle", "shuffle"),
  ("snakecase", "toSnakeCase"),
  ("camelcase", "toPascalCase"),
  ("kebabcase", "toKebabCase"),
  ("wrap", "func:wrap"),
  ("wrapWith", "func:wrapWith"),
  ("contains", "func:contains"),
  ("hasPrefix", "func:hasPrefix"),
  ("hasSuffix", "func:hasSuffix"),
  ("quote", "quote"),
  ("squote", "squote"),
  ("cat", "cat"),
  ("indent", "indent"),
  ("nindent", "nindent"),
  ("replace", "replace"),
  ("plural", "plural"),
  ("toString", "strval"),
  -- Hash functions
  ("sha1sum", "sha1sum"),
  ("sha256sum", "sha256sum"),
  ("sha512sum", "sha512sum"),
  ("adler32sum", "adler32sum"),
  ("md5sum", "md5sum"),
  -- Conversion functions
  ("atoi", "func:atoi"),
  ("int64", "toInt64"),
  ("int", "toInt"),
  ("toInt", "toInt"),
  ("float64", "toFloat64"),
  ("seq", "seq"),
  ("toDecimal", "toDecimal"),
  -- String array functions
  ("split", "split"),
  ("splitList", "func:splitList"),
  ("splitn", "splitn"),
  ("toStrings", "strslice"),
  -- Flow control
  ("until", "until"),
  ("untilStep", "untilStep"),
  -- Math functions
  ("add1", "func:add1"),
  ("add", "func:add"),
  ("sub", "func:sub"),
  ("div", "func:div"),
  ("mod", "func:mod"),
  ("mul", "mul"),
  ("randInt", "func:randInt"),
  ("add1f", "add1f"),
  ("addf", "addf"),
  ("subf", "subf"),
  ("divf", "divf"),
  ("mulf", "mulf"),
  ("biggest", "max"),
  ("max", "max"),
  ("min", "min"),
  ("maxf", "maxf"),
  ("minf", "minf"),
  ("ceil", "ceil"),
  ("floor", "floor"),
  ("round", "round"),
  -- String slices
  ("join", "join"),
  ("sortAlpha", "sortAlpha"),
  -- Defaults
  ("default", "dfault"),
  ("empty", "empty"),
  ("coalesce", "coalesce"),
  ("all", "all"),
  ("any", "any"),
  ("compact", "compact"),
  ("mustCompact", "mustCompact"),
  ("fromJson", "fromJson"),
  ("toJson", "toJson"),
  ("toPrettyJson", "toPrettyJson"),
  ("toRawJson", "toRawJson"),
  ("mustFromJson", "mustFromJson"),
  ("mustToJson", "mustToJson"),
  ("mustToPrettyJson", "mustToPrettyJson"),
  ("mustToRawJson", "mustToRawJson"),
  ("fromYaml", "fromYaml"),
  ("toYaml", "toYaml"),
  ("mustFromYaml", "mustFromYaml"),
  ("mustToYaml", "mustToYaml"),
  ("ternary", "ternary"),
  ("deepCopy", "deepCopy"),
  ("mustDeepCopy", "mustDeepCopy"),
  -- Reflection
  ("typeOf", "typeOf"),
  ("typeIs", "typeIs"),
  ("typeIsLike", "typeIsLike"),
  ("kindOf", "kindOf"),
  ("kindIs", "kindIs"),
  ("deepEqual", "reflect.DeepEqual"),
  -- OS
  ("env", "os.Getenv"),
  ("expandenv", "os.ExpandEnv"),
  -- Network
  ("getHostByName", "getHostByName"),
  -- Paths
  ("base", "path.Base"),
  ("dir", "path.Dir"),
  ("clean", "path.Clean"),
  ("ext", "path.Ext"),
  ("isAbs", "path.IsAbs"),
  -- File paths
  ("osBase", "filepath.Base"),
  ("osClean", "filepath.Clean"),
  ("osDir", "filepath.Dir"),
  ("osExt", "filepath.Ext"),
  ("osIsAbs", "filepath.IsAbs"),
  -- Encoding
  ("b64enc", "base64encode"),
  ("b64dec", "base64decode"),
  ("b32enc", "base32encode"),
  ("b32dec", "base32decode"),
  -- Data Structures
  ("tuple", "list"),
  ("list", "list"),
  ("dict", "dict"),
  ("get", "get"),
  ("set", "set"),
  ("unset", "unset"),
  ("hasKey", "hasKey"),
  ("pluck", "pluck"),
  ("keys", "keys"),
  ("pick", "pick"),
  ("omit", "omit"),
  ("merge", "merge"),
  ("mergeOverwrite", "mergeOverwrite"),
  ("mustMerge", "mustMerge"),
  ("mustMergeOverwrite", "mustMergeOverwrite"),
  ("values", "values"),
  ("append", "push"),
  ("push", "push"),
  ("mustAppend", "mustPush"),
  ("mustPush", "mustPush"),
  ("prepend", "prepend"),
  ("mustPrepend", "mustPrepend"),
  ("first", "first"),
  ("mustFirst", "mustFirst"),
  ("rest", "rest"),
  ("mustRest", "mustRest"),
  ("last", "last"),
  ("mustLast", "mustLast"),
  ("initial", "initial"),
  ("mustInitial", "mustInitial"),
  ("reverse", "reverse"),
  ("mustReverse", "mustReverse"),
  ("uniq", "uniq"),
  ("mustUniq", "mustUniq"),
  ("without", "without"),
  ("mustWithout", "mustWithout"),
  ("has", "has"),
  ("mustHas", "mustHas"),
  ("slice", "slice"),
  ("mustSlice", "mustSlice"),
  ("concat", "concat"),
  ("dig", "dig"),
  ("chunk", "chunk"),
  ("mustChunk", "mustChunk"),
  -- Crypto
  ("bcrypt", "bcrypt"),
  ("htpasswd", "htpasswd"),
  ("genPrivateKey", "generatePrivateKey"),
  ("derivePassword", "derivePassword"),
  ("buildCustomCert", "buildCustomCertificate"),
  ("genCA", "generateCertificateAuthority"),
  ("genCAWithKey", "generateCertificateAuthorityWithPEMKey"),
  ("genSelfSignedCert", "generateSelfSignedCertificate"),
  ("genSelfSignedCertWithKey", "generateSelfSignedCertificateWithPEMKey"),
  ("genSignedCert", "generateSignedCertificate"),
  ("genSignedCertWithKey", "generateSignedCertificateWithPEMKey"),
  ("encryptAES", "encryptAES"),
  ("decryptAES", "decryptAES"),
  ("randBytes", "randBytes"),
  ("addPEMHeader", "addPEMHeader"),
  -- UUIDs
  ("uuidv4", "uuidv4"),
  -- SemVer
  ("semver", "semverFunc"),
  ("semverCompare", "semverCompare"),
  -- Comparison
  ("eq", "eq"),
  ("ne", "ne"),
  ("lt", "lt"),
  ("le", "le"),
  ("gt", "gt"),
  ("ge", "ge"),
  -- Length
  ("len", "length"),
  -- Flow Control
  ("fail", "func:fail"),
  -- Regex
  ("regexMatch", "regexMatch"),
  ("mustRegexMatch", "mustRegexMatch"),
  ("regexFindAll", "regexFindAll"),
  ("mustRegexFindAll", "mustRegexFindAll"),
  ("regexFind", "regexFind"),
  ("mustRegexFind", "mustRegexFind"),
  ("regexReplaceAll", "regexReplaceAll"),
  ("mustRegexReplaceAll", "mustRegexReplaceAll"),
  ("regexReplaceAllLiteral", "regexReplaceAllLiteral"),
  ("mustRegexReplaceAllLiteral", "mustRegexReplaceAllLiteral"),
  ("regexSplit", "regexSplit"),
  ("mustRegexSplit", "mustRegexSplit"),
  ("regexQuoteMeta", "regexQuoteMeta"),
  -- URLs
  ("urlParse", "urlParse"),
  ("urlJoin", "urlJoin")]

/-- Embeds the `nonHermetic` exclusion list of `hermeticFuncMap`. -/
def nonHermetic : List String :=
  ["now", "date", "dateInZone", "dateModify", "ago", "toDate", "unixEpoch",
   "htmlDate", "htmlDateInZone", "duration", "durationRound",
   "randAlpha", "randAlphaNum", "randNumeric", "randAscii", "uuidv4", "randBytes",
   "env", "expandenv"]

/-- Embeds `hermeticFuncMap`: the full table with the excluded names
deleted (`delete(all, key)` on a unique-key map = filtering those
entries out). -/
def hermeticFuncMap : List (String × String) :=
  genericFuncMap.filter (fun p => ! nonHermetic.contains p.1)

/-- Name lookup in a function table. -/
def tableLookup : List (String × String) → String → Option String
  | [], _ => none
  | (k', v') :: rest, k => if k' = k then some v' else tableLookup rest k

/-! ### Semantic versions

`semverCompare` delegates ordering to the dependency
`golang.org/x/mod/semver` (`Compare`, `Major`); the following embeds
that library's parse and compare, char for char. -/

/-- `semver.parseInt`: a leading run of decimal digits, rejecting a
superfluous leading zero. -/
def parseIntSem : List Char → Option (List Char × List Char)
  | [] => none
  | c :: rest =>
      if c.isDigit then
        let digs := List.takeWhile Char.isDigit (c :: rest)
        let rem := List.dropWhile Char.isDigit (c :: rest)
        if c = '0' ∧ digs.length ≠ 1 then none else some (digs, rem)
      else none

/-- `semver.isIdentChar`: ASCII letters, digits and hyphen. -/
def isIdentChar (c : Char) : Bool :=
  (65 ≤ c.toNat && c.toNat ≤ 90) || (97 ≤ c.toNat && c.toNat ≤ 122) ||
    (48 ≤ c.toNat && c.toNat ≤ 57) || c == '-'

/-- `semver.isBadNum`: all digits, longer than one char, leading zero. -/
def isBadNum (v : List Char) : Bool :=
  v.all Char.isDigit && decide (1 < v.length) && v.take 1 == ['0']

/-- `semver.parsePrerelease`: a `-` then dot-separated, nonempty,
ident-char groups with no bad numerics, scanning up to a `+`.  Returns
the groups (split form of the source's prerelease string) and the rest. -/
def parsePrereleaseSem : List Char → Option (List (List Char) × List Char)
  | '-' :: body0 =>
      let body := List.takeWhile (fun c => c ≠ '+') body0
      let rest := List.dropWhile (fun c => c ≠ '+') body0
      let groups := splitOnChar '.' body
      if body.all (fun c => isIdentChar c || c == '.') &&
          groups.all (fun g => !g.isEmpty && !isBadNum g) then
        some (groups, rest)
      else none
  | _ => none

/-- `semver.parseBuild`: a `+` then dot-separated, nonempty, ident-char
groups (leading zeros allowed), running to the end of the string. -/
def parseBuildSem : List Char → Option (List (List Char))
  | '+' :: body =>
      let groups := splitOnChar '.' body
      if body.all (fun c => isIdentChar c || c == '.') &&
          groups.all (fun g => !g.isEmpty) then
        some groups
      else none
  | _ => none

/-- `semver.parse`'s result: major/minor/patch digit strings, the
prerelease identifiers (`none` = no prerelease) and build identifiers. -/
structure SemParsed where
  major : List Char
  minor : List Char
  patch : List Char
  pre : Option (List (List Char))
  build : Option (List (List Char))

/-- `semver.parse`: `v`-prefixed `major[.minor[.patch[-pre][+build]]]`
with omitted minor/patch defaulting to `0`. -/
def parseSem (v : List Char) : Option SemParsed :=
  match v with
  | 'v' :: r0 =>
      match parseIntSem r0 with
      | none => none
      | some (maj, r1) =>
          match r1 with
          | [] => some ⟨maj, ['0'], ['0'], none, none⟩
          | '.' :: r2 =>
              match parseIntSem r2 with
              | none => none
              | some (minr, r3) =>
                  match r3 with
                  | [] => some ⟨maj, minr, ['0'], none, none⟩
                  | '.' :: r4 =>
                      match parseIntSem r4 with
                      | none => none
                      | some (pat, r5) =>
                          match r5 with
                          | [] => some ⟨maj, minr, pat, none, none⟩
                          | '-' :: _ =>
                              match parsePrereleaseSem r5 with
                              | none => none
                              | some (pre, r6) =>
                                  match r6 with
                                  | [] => some ⟨maj, minr, pat, some pre, none⟩
                                  | '+' :: _ =>
                                      match parseBuildSem r6 with
                                      | none => none
                                      | some b => some ⟨maj, minr, pat, some pre, some b⟩
                                  | _ => none
                          | '+' :: _ =>
                              match parseBuildSem r5 with
                              | none => none
                              | some b => some ⟨maj, minr, pat, none, some b⟩
                          | _ => none
                  | _ => none
          | _ => none
  | _ => none

/-- Go byte-wise string `<`, lexicographic. -/
def lexLtChars : List Char → List Char → Bool
  | [], [] => false
  | [], _ :: _ => true
  | _ :: _, [] => false
  | a :: as, b :: bs => if a = b then lexLtChars as bs else decide (a < b)

/-- `semver.compareInt`: numeric comparison of two digit strings —
shorter is smaller, equal length falls back to lexicographic order. -/
def compareIntSem (x y : List Char) : ℤ :=
  if x = y then 0
  else if x.length < y.length then -1
  else if y.length < x.length then 1
  else if lexLtChars x y then -1 else 1

/-- One step of `semver.comparePrerelease`'s identifier comparison (for
identifiers that differ): numeric sorts before alphanumeric, numerics
numerically, otherwise lexicographically. -/
def cmpIdent (dx dy : List Char) : ℤ :=
  let ix := dx.all Char.isDigit
  let iy := dy.all Char.isDigit
  if ix ≠ iy then (if ix then -1 else 1)
  else if ix && decide (dx.length < dy.length) then -1
  else if ix && decide (dy.length < dx.length) then 1
  else if lexLtChars dx dy then -1 else 1

/-- The identifier loop of `semver.comparePrerelease` on the dot-split
identifier lists: first differing identifier decides; a strict prefix
sorts first. -/
def cmpIdentList : List (List Char) → List (List Char) → ℤ
  | [], [] => 0
  | [], _ :: _ => -1
  | _ :: _, [] => 1
  | dx :: xs, dy :: ys => if dx = dy then cmpIdentList xs ys else cmpIdent dx dy

/-- `semver.comparePrerelease`: no prerelease ranks above any
prerelease. -/
def comparePre : Option (List (List Char)) → Option (List (List Char)) → ℤ
  | none, none => 0
  | none, some _ => 1
  | some _, none => -1
  | some xs, some ys => cmpIdentList xs ys

/-- `semver.Compare`: an invalid version sorts below every valid one and
equal to any other invalid one; valid versions compare by major, minor,
patch, then prerelease (build metadata ignored). -/
def semverCompareRaw (v w : List Char) : ℤ :=
  match parseSem v, parseSem w with
  | none, none => 0
  | none, some _ => -1
  | some _, none => 1
  | some pv, some pw =>
      let c1 := compareIntSem pv.major pw.major
      if c1 ≠ 0 then c1
      else
        let c2 := compareIntSem pv.minor pw.minor
        if c2 ≠ 0 then c2
        else
          let c3 := compareIntSem pv.patch pw.patch
          if c3 ≠ 0 then c3 else comparePre pv.pre pw.pre

/-- `semver.Major`: `v` plus the major digits of a valid version, empty
for an invalid one. -/
def semverMajor (v : List Char) : List Char :=
  match parseSem v with
  | none => []
  | some pv => 'v' :: pv.major

/-- Go `strings.HasPrefix` on char lists. -/
def isPrefixSeq : List Char → List Char → Bool
  | [], _ => true
  | _ :: _, [] => false
  | a :: as, b :: bs => a == b && isPrefixSeq as bs

/-- Go `strings.Contains` on char lists. -/
def containsSeq (needle : List Char) : List Char → Bool
  | [] => isPrefixSeq needle []
  | c :: rest => isPrefixSeq needle (c :: rest) || containsSeq needle rest

/-- The `v`-prefix normalization `semverCompare` applies to both of its
operands before handing them to `semver.Compare`. -/
def addV (l : List Char) : List Char :=
  if isPrefixSeq ['v'] l then l else 'v' :: l

/-- Embeds `semverCompare(constraint, version)` (RELEASE.md): reject an
empty constraint and printf-mangled constraints; peel a one- or
two-character operator (falling back to `=` against the whole constraint
when nothing remains after the operator); `v`-prefix both strings; apply
the operator to `semver.Compare`'s verdict, with `^` additionally
demanding equal majors. -/
def semverCompare (constraint version : String) : Bool :=
  let c := constraint.data
  if c.length = 0 then false
  else if containsSeq ['%', '!'] c then false
  else
    let split1 : List Char × List Char :=
      match c with
      | a :: b :: rest =>
          if (a = '>' ∧ b = '=') ∨ (a = '<' ∧ b = '=') ∨
              (a = '=' ∧ b = '=') ∨ (a = '!' ∧ b = '=') then ([a, b], rest)
          else ([a], b :: rest)
      | _ => (c.take 1, c.drop 1)
    let opcv := if split1.2 = [] then (['='], c) else split1
    let vv := addV version.data
    let cvv := addV opcv.2
    let result := semverCompareRaw vv cvv
    match opcv.1 with
    | ['='] | ['=', '='] => result == 0
    | ['!', '='] | ['<', '>'] => !(result == 0)
    | ['<'] => decide (result < 0)
    | ['<', '='] => decide (result ≤ 0)
    | ['>'] => decide (result > 0)
    | ['>', '='] => decide (result ≥ 0)
    | ['^'] =>
        if semverMajor cvv ≠ semverMajor vv then false
        else decide (result ≥ 0)
    | _ => false

/-! ## Theorems -/

/-- C10: `div` and `mod` guard their divisor — whenever the second
operand coerces to the integer 0, both return 0 rather than reaching the
division/modulo operation, so the divide-by-zero fault is unreachable
(both functions are total). -/
theorem div_mod_zero_divisor_guarded (a b : GoVal) (h : toInt64 b = 0) :
    divGo a b = 0 ∧ modGo a b = 0 := by
  unfold divGo modGo
  simp [h]

/-- Witness for `div_mod_zero_divisor_guarded`: the string `"zero"` is
unparseable and coerces to 0, and `div`/`mod` return 0 on it. -/
theorem div_mod_zero_divisor_guarded_witness :
    toInt64 (GoVal.vStr "zero") = 0 ∧
      divGo (GoVal.vInt 7) (GoVal.vStr "zero") = 0 ∧
      modGo (GoVal.vInt 7) (GoVal.vStr "zero") = 0 := by
  have h : toInt64 (GoVal.vStr "zero") = 0 := by decide
  have hdm := div_mod_zero_divisor_guarded (GoVal.vInt 7) (GoVal.vStr "zero") h
  exact ⟨h, hdm.1, hdm.2⟩

/-- C6 (code bug): a constraint with no recognized operator and more
than one character never falls back to implicit equality — `semverCompare`
misparses its first character as an operator and the operator switch's
default arm returns false for every version, so even
`semverCompare("1.2.3", "1.2.3")` is false. -/
theorem semver_bare_constraint_always_false :
    (∀ v : String, semverCompare "1.2.3" v = false) ∧
      semverCompare "1.2.3" "1.2.3" = false :=
  ⟨fun _ => rfl, rfl⟩

/-- C7 counterexample: `mustChunk` with a non-positive size returns a
nil result *and a nil error* — it reports no failure, contradicting the
claim that the strict variant fails explicitly. -/
theorem mustChunk_nonpositive_no_error :
    mustChunk 0 (GoVal.vList [GoVal.vInt 1]) = ([], none) := rfl

/-- C7 amended: for `size ≤ 0` the bare `chunk` returns nil (modelled as
`[]`) without faulting, and `mustChunk` returns the same nil result with
a nil error — it never reports a failure (its error component is `none`
on every input). -/
theorem chunk_nonpositive_size_amended :
    (∀ (size : ℤ) (list : GoVal), size ≤ 0 →
        chunkGo size list = [] ∧ mustChunk size list = ([], none)) ∧
      (∀ (size : ℤ) (list : GoVal), (mustChunk size list).2 = none) := by
  constructor
  · intro size list h
    cases list <;> simp [chunkGo, mustChunk, h]
  · intro size list
    rfl

/-- Witness for `chunk_nonpositive_size_amended` at size `-3`. -/
theorem chunk_nonpositive_size_amended_witness :
    chunkGo (-3) (GoVal.vList [GoVal.vStr "x"]) = [] ∧
      mustChunk (-3) (GoVal.vList [GoVal.vStr "x"]) = ([], none) :=
  chunk_nonpositive_size_amended.1 (-3) (GoVal.vList [GoVal.vStr "x"]) (by norm_num)

/-- C1 counterexample: with `{"a": 1}`, the intermediate segment `"a"`
of the path `"a.b"` resolves to a non-mapping value, yet `dig` does not
fail with a key-not-found error — it returns the value `1`. -/
theorem dig_intermediate_nonmap_counterexample :
    dig "a.b" [("a", GoVal.vInt 1)] = .ok (GoVal.vInt 1) ∧
      ∀ e, dig "a.b" [("a", GoVal.vInt 1)] ≠ .error e := by
  have hok : dig "a.b" [("a", GoVal.vInt 1)] = .ok (GoVal.vInt 1) := rfl
  refine ⟨hok, fun e h => ?_⟩
  rw [hok] at h
  exact Except.noConfusion h

/-- C1 amended: `dig` fails with `key %s not found` exactly on a missing
key; an intermediate segment resolving to a *non-mapping* value makes
`dig` return that value immediately, ignoring the remaining segments;
the final segment's value is returned whatever its kind.  Stated as
(i) the traversal loop equals the final-segment-distinguishing
`digSpec`, (ii) `dig` itself equals `digSpec` on the split path, and
(iii) the short-circuit law for intermediate non-mapping values. -/
theorem dig_traversal_amended :
    (∀ (segs : List String) (cur : GoMap), digList segs cur = digSpec segs cur) ∧
      (∀ (ps : String) (dict : GoMap),
        dig ps dict = digSpec ((splitOnChar '.' ps.data).map List.asString) dict) ∧
      (∀ (p : String) (rest : List String) (cur : GoMap) (v : GoVal),
        mapLookup cur p = some v → (∀ m, v ≠ GoVal.vMap m) →
        digList (p :: rest) cur = .ok v) := by
  have main : ∀ (segs : List String) (cur : GoMap), digList segs cur = digSpec segs cur := by
    intro segs
    induction segs with
    | nil => intro cur; rfl
    | cons p rest ih =>
      intro cur
      cases rest with
      | nil =>
        cases h : mapLookup cur p with
        | none => simp [digList, digSpec, h]
        | some val => cases val <;> simp [digList, digSpec, h]
      | cons q rest' =>
        simp only [digList, digSpec]
        cases h : mapLookup cur p with
        | none => rfl
        | some val => cases val <;> first | rfl | exact ih _
  refine ⟨main, fun ps dict => main _ _, fun p rest cur v h hv => ?_⟩
  cases v <;> simp [digList, h]
  exact absurd rfl (hv _)

/-- Witness for `dig_traversal_amended`: an intermediate non-mapping
value is returned as-is. -/
theorem dig_traversal_amended_witness :
    digList ["x", "y"] [("x", GoVal.vStr "leaf")] = .ok (GoVal.vStr "leaf") :=
  dig_traversal_amended.2.2 "x" ["y"] [("x", GoVal.vStr "leaf")] (GoVal.vStr "leaf")
    rfl (fun _ h => GoVal.noConfusion h)

/-- Looking a name up in a filtered table: excluded names are gone,
every other lookup is unchanged. -/
theorem tableLookup_filter (bad : List String) (l : List (String × String)) (n : String) :
    tableLookup (l.filter (fun p => ! bad.contains p.1)) n =
      if n ∈ bad then none else tableLookup l n := by
  induction l with
  | nil =>
    simp only [List.filter_nil]
    split <;> rfl
  | cons hd tl ih =>
    obtain ⟨k, v⟩ := hd
    by_cases hb : k ∈ bad
    · have hc : (! bad.contains k) = false := by simpa using hb
      rw [List.filter_cons]
      simp only [hc, Bool.false_eq_true, if_false, ih]
      by_cases hn : n ∈ bad
      · simp [hn]
      · have hkn : k ≠ n := fun hh => hn (hh ▸ hb)
        simp [hn, tableLookup, hkn]
    · have hc : (! bad.contains k) = true := by simpa using hb
      rw [List.filter_cons]
      simp only [hc, if_true]
      by_cases hkn : k = n
      · subst hkn
        simp [tableLookup, hb]
      · simp only [tableLookup, if_neg hkn]
        exact ih

/-- C2 counterexample: `date_in_zone` survives in the hermetic table yet
is an alias (the same underlying function, `dateInZone`) of the excluded
name `dateInZone` — so an alias of an excluded function *is* present in
the hermetic table, contradicting the claim. -/
theorem hermetic_alias_counterexample :
    tableLookup hermeticFuncMap "date_in_zone" = some "dateInZone" ∧
      tableLookup hermeticFuncMap "dateInZone" = none ∧
      tableLookup genericFuncMap "dateInZone" = some "dateInZone" ∧
      "dateInZone" ∈ nonHermetic := by
  refine ⟨by decide, by decide, by decide, by decide⟩

/-- C2 amended: the hermetic table is the full table minus exactly the
names on the explicit exclusion list — a name is bound in the hermetic
table if and only if it is bound to the same function in the full table
and is not itself on the exclusion list.  (Aliases of excluded functions
bound under other names, such as `date_in_zone`, `date_modify`,
`must_date_modify`, remain present.) -/
theorem hermetic_table_amended (n f : String) :
    tableLookup hermeticFuncMap n = some f ↔
      (tableLookup genericFuncMap n = some f ∧ n ∉ nonHermetic) := by
  rw [hermeticFuncMap, tableLookup_filter]
  by_cases h : n ∈ nonHermetic <;> simp [h]

/-- Splitting never produces an empty component list. -/
theorem splitOnChar_ne_nil (sep : Char) (s : List Char) : splitOnChar sep s ≠ [] := by
  cases s with
  | nil => simp [splitOnChar]
  | cons c rest =>
    simp only [splitOnChar]
    split
    · simp
    · cases splitOnChar sep rest <;> simp

/-- Joining components whose first component is nonempty yields a
nonempty string. -/
theorem joinChar_cons_ne_nil (sep : Char) (g : List Char) (gs : List (List Char))
    (hg : g ≠ []) : joinChar sep (g :: gs) ≠ [] := by
  cases gs with
  | nil => simpa [joinChar] using hg
  | cons g2 tl =>
    simp only [joinChar]
    intro hcontra
    rcases List.append_eq_nil.mp hcontra with ⟨-, h2⟩
    exact List.noConfusion h2

/-- C3 counterexample: the entry path `"a/"` has 2 components (the
second empty); stripping `min(1, 2-1) = 1` component leaves the empty
suffix, so the entry is written with an empty name — refuting the
claim's "no entry is ever written with an empty name". -/
theorem strip_empty_name_counterexample :
    extractName 1 "a/" = "" ∧ (splitOnChar '/' "a/".data).length = 2 :=
  ⟨rfl, rfl⟩

/-- C3 amended: for every strip count `N ≥ 0`, extraction removes
exactly `min(N, c-1)` leading components of the entry path's `c ≥ 1
split components and rejoins the rest, so at least one component always
survives; the written name is nonempty provided the surviving components
are nonempty (a path with a trailing or doubled separator can still
yield an empty name). -/
theorem strip_min_components_amended (N : ℤ) (name : String) (h : 0 ≤ N) :
    extractName N name =
      (joinChar '/' ((splitOnChar '/' name.data).drop
        (min N.toNat ((splitOnChar '/' name.data).length - 1)))).asString ∧
      ((∀ seg ∈ (splitOnChar '/' name.data).drop
          (min N.toNat ((splitOnChar '/' name.data).length - 1)), seg ≠ []) →
        extractName N name ≠ "") := by
  have hne : splitOnChar '/' name.data ≠ [] := splitOnChar_ne_nil _ _
  have hlen : 1 ≤ (splitOnChar '/' name.data).length := List.length_pos.mpr hne
  have key : extractName N name =
      (joinChar '/' ((splitOnChar '/' name.data).drop
        (min N.toNat ((splitOnChar '/' name.data).length - 1)))).asString := by
    simp only [extractName]
    by_cases hge : N ≥ ((splitOnChar '/' name.data).length : ℤ)
    · rw [if_pos hge, if_pos (by omega)]
      congr 3
      omega
    · rw [if_neg hge, if_pos (by omega)]
      congr 3
      omega
  refine ⟨key, fun hsegs => ?_⟩
  rw [key]
  have hk : min N.toNat ((splitOnChar '/' name.data).length - 1) <
      (splitOnChar '/' name.data).length := by omega
  have hdroplen : 0 < ((splitOnChar '/' name.data).drop
      (min N.toNat ((splitOnChar '/' name.data).length - 1))).length := by
    rw [List.length_drop]
    omega
  obtain ⟨g, gs, hdrop⟩ :=
    List.exists_cons_of_ne_nil (List.length_pos.mp hdroplen)
  have hg : g ≠ [] := hsegs g (by rw [hdrop]; exact List.mem_cons_self _ _)
  rw [hdrop]
  intro hcontra
  apply joinChar_cons_ne_nil '/' g gs hg
  have hdata := congrArg String.data hcontra
  simpa using hdata

/-- Witness for `strip_min_components_amended`: stripping 2 components
from `"a/b/c/d"` leaves a nonempty name. -/
theorem strip_min_components_amended_witness :
    extractName 2 "a/b/c/d" ≠ "" :=
  (strip_min_components_amended 2 "a/b/c/d" (by norm_num)).2 (by decide)

/-- `pythonSlice` with `s = -2`, `e = len` takes the last two elements. -/
theorem pythonSlice_neg_two (xs : List GoVal) (h : 2 ≤ xs.length) :
    pythonSlice xs (-2) (xs.length : ℤ) = xs.drop (xs.length - 2) := by
  have he : (clampIdx (xs.length : ℤ) (resolveIdx (xs.length : ℤ) (xs.length : ℤ))).toNat =
      xs.length := by
    unfold clampIdx resolveIdx
    split_ifs <;> omega
  have hs : (clampIdx (xs.length : ℤ) (resolveIdx (xs.length : ℤ) (-2))).toNat =
      xs.length - 2 := by
    unfold clampIdx resolveIdx
    split_ifs <;> omega
  simp only [pythonSlice]
  rw [he, hs, List.take_length]

/-- C4: `slice` is a Python-style half-open range — (i) with two integer
indices it agrees with `pythonSlice` (negative indices resolved from the
end, indices clamped into `[0, len]`, empty — never a fault — when start
≥ end after clamping); (ii) with one index the end defaults to the
length; (iii) `slice(seq, -2, len(seq))` is the last two elements of any
`seq` with at least two of them; (iv) `slice(seq, 100, 200)` on a
3-element sequence is empty. -/
theorem slice_python_semantics :
    (∀ (xs : List GoVal) (s e : ℤ),
        sliceGo (.vList xs) [.vInt s, .vInt e] = .vList (pythonSlice xs s e)) ∧
      (∀ (xs : List GoVal) (s : ℤ),
        sliceGo (.vList xs) [.vInt s] = .vList (pythonSlice xs s (xs.length : ℤ))) ∧
      (∀ xs : List GoVal, 2 ≤ xs.length →
        sliceGo (.vList xs) [.vInt (-2), .vInt (xs.length : ℤ)] =
          .vList (xs.drop (xs.length - 2))) ∧
      (∀ a b c : GoVal,
        sliceGo (.vList [a, b, c]) [.vInt 100, .vInt 200] = .vList []) := by
  have main : ∀ (xs : List GoVal) (s e : ℤ),
      sliceGo (.vList xs) [.vInt s, .vInt e] = .vList (pythonSlice xs s e) := by
    intro xs s e
    simp only [sliceGo, pythonSlice, toInt, toInt64, resolveIdx, clampIdx]
    split_ifs <;> simp only [GoVal.vList.injEq] <;>
      first
        | rfl
        | (symm; apply List.drop_eq_nil_of_le; rw [List.length_take]; omega)
        | (refine congrArg₂ List.drop (by omega) (congrArg₂ List.take (by omega) rfl))
  have single : ∀ (xs : List GoVal) (s : ℤ),
      sliceGo (.vList xs) [.vInt s] = .vList (pythonSlice xs s (xs.length : ℤ)) := by
    intro xs s
    simp only [sliceGo, pythonSlice, toInt, toInt64, resolveIdx, clampIdx]
    split_ifs <;> simp only [GoVal.vList.injEq] <;>
      first
        | rfl
        | (symm; apply List.drop_eq_nil_of_le; rw [List.length_take]; omega)
        | (refine congrArg₂ List.drop (by omega) (congrArg₂ List.take (by omega) rfl))
  refine ⟨main, single, fun xs h => ?_, fun a b c => rfl⟩
  rw [main xs (-2) (xs.length : ℤ), pythonSlice_neg_two xs h]

/-- Witness for `slice_python_semantics`: the last-two-elements clause
at a concrete 3-element sequence. -/
theorem slice_python_semantics_witness :
    sliceGo (.vList [GoVal.vInt 1, GoVal.vInt 2, GoVal.vInt 3])
        [.vInt (-2), .vInt 3] =
      .vList [GoVal.vInt 2, GoVal.vInt 3] :=
  slice_python_semantics.2.2.1 [GoVal.vInt 1, GoVal.vInt 2, GoVal.vInt 3] (by norm_num)

/-- Reading a key after a Go map assignment. -/
theorem mapLookup_setKey (d : GoMap) (k0 : String) (v0 : GoVal) (k : String) :
    mapLookup (setKey d k0 v0) k = if k0 = k then some v0 else mapLookup d k := by
  induction d with
  | nil => simp [setKey, mapLookup]
  | cons hd tl ih =>
    obtain ⟨k', v'⟩ := hd
    simp only [setKey]
    by_cases h : k' = k0
    · subst h
      simp only [if_pos rfl, mapLookup]
      by_cases hk : k' = k <;> simp [hk]
    · simp only [if_neg h, mapLookup, ih]
      by_cases hk : k' = k <;> by_cases hk0 : k0 = k
      · exact absurd (hk.trans hk0.symm) h
      · simp [hk, hk0]
      · simp [hk, hk0]
      · simp [hk, hk0]

/-- A key outside a map's key set is unbound. -/
theorem mapLookup_eq_none (d : GoMap) (k : String) (h : k ∉ d.map Prod.fst) :
    mapLookup d k = none := by
  induction d with
  | nil => rfl
  | cons hd tl ih =>
    obtain ⟨k', v'⟩ := hd
    simp only [List.map_cons, List.mem_cons] at h
    push_neg at h
    have hne : ¬ (k' = k) := fun hc => h.1 hc.symm
    simp only [mapLookup, if_neg hne]
    exact ih h.2

/-- Writing every binding of a unique-key source map into a destination:
the source's bindings win, everything else is untouched. -/
theorem mapLookup_setAll (d src : GoMap) (hnd : (src.map Prod.fst).Nodup) (k : String) :
    mapLookup (setAll d src) k =
      match mapLookup src k with
      | some v => some v
      | none => mapLookup d k := by
  induction src generalizing d with
  | nil => rfl
  | cons hd tl ih =>
    obtain ⟨k0, v0⟩ := hd
    simp only [List.map_cons, List.nodup_cons] at hnd
    have hstep : setAll d ((k0, v0) :: tl) = setAll (setKey d k0 v0) tl := rfl
    rw [hstep, ih _ hnd.2]
    by_cases hk : k0 = k
    · subst hk
      have hnone : mapLookup tl k0 = none := mapLookup_eq_none _ _ hnd.1
      simp [mapLookup, hnone, mapLookup_setKey]
    · cases hmt : mapLookup tl k <;> simp [mapLookup, hk, hmt, mapLookup_setKey]

/-- Folding a list of unique-key source maps into a destination realizes
the specification's left-to-right key overwrite, key by key. -/
theorem mapLookup_mergeMaps (dst : GoMap) (srcs : List GoMap)
    (hnd : ∀ m ∈ srcs, (m.map Prod.fst).Nodup) (k : String) :
    mapLookup (mergeMaps dst srcs) k = overrideLookup dst srcs k := by
  induction srcs generalizing dst with
  | nil => rfl
  | cons src tl ih =>
    have h1 : mergeMaps dst (src :: tl) = mergeMaps (setAll dst src) tl := rfl
    have h2 : overrideLookup dst (src :: tl) k =
        overrideLookup (setAll dst src) tl k := by
      simp only [overrideLookup, List.foldl_cons]
      congr 1
      rw [mapLookup_setAll _ _ (hnd src (List.mem_cons_self _ _)) k]
    rw [h1, ih (setAll dst src) (fun m hm => hnd m (List.mem_cons_of_mem _ hm)), ← h2]

/-- C8: `merge(dst, srcs...)` mutates `dst` in place and returns that
same reference — the update is visible through the original reference
`dstRef` and through the returned reference (which *is* `dstRef`), no
other reference changes, and the merged mapping realizes left-to-right
key overwrite into `dst`. -/
theorem merge_mutates_and_overwrites (h : MapHeap) (dstRef : ℕ) (srcRefs : List ℕ)
    (dstMap : GoMap) (hdst : h dstRef = some dstMap)
    (hnd : ∀ m ∈ srcRefs.map (fun r => (h r).getD []), (m.map Prod.fst).Nodup) :
    (mergeGo h dstRef srcRefs).2 = dstRef ∧
      (mergeGo h dstRef srcRefs).1 dstRef =
        some (mergeMaps dstMap (srcRefs.map (fun r => (h r).getD []))) ∧
      (∀ r, r ≠ dstRef → (mergeGo h dstRef srcRefs).1 r = h r) ∧
      (∀ k, mapLookup (mergeMaps dstMap (srcRefs.map (fun r => (h r).getD []))) k =
        overrideLookup dstMap (srcRefs.map (fun r => (h r).getD [])) k) := by
  refine ⟨rfl, ?_, ?_, fun k => mapLookup_mergeMaps _ _ hnd k⟩
  · simp [mergeGo, hdst]
  · intro r hr
    simp [mergeGo, hr]

/-- Witness for `merge_mutates_and_overwrites`: the specification's own
example — merging `{"a":2,"b":3}` into `{"a":1}` yields `{"a":2,"b":3}`,
observable through the original reference 0, which is also returned. -/
theorem merge_mutates_and_overwrites_witness :
    (mergeGo exampleHeap 0 [1]).2 = 0 ∧
      (mergeGo exampleHeap 0 [1]).1 0 =
        some [("a", GoVal.vInt 2), ("b", GoVal.vInt 3)] := by
  have H := merge_mutates_and_overwrites exampleHeap 0 [1] [("a", GoVal.vInt 1)]
    rfl (by decide)
  exact ⟨H.1, H.2.1⟩

/-- `goEq` is transitive (it is Go interface equality). -/
theorem goEq_trans {a b c : GoVal} (h1 : goEq a b = true) (h2 : goEq b c = true) :
    goEq a c = true := by
  cases a <;> cases b <;> cases c <;> simp_all [goEq]

/-- The `uniq` loop on all-hashable input computes first-occurrence
deduplication relative to the already-seen keys. -/
theorem uniqAux_hashable (xs : List GoVal) :
    ∀ seen : List GoVal, (∀ x ∈ xs, hashable x = true) →
      uniqAux seen xs =
        .ok ((dedupSpec xs).filter (fun y => ! seen.any (fun s => goEq s y))) := by
  induction xs with
  | nil => intro seen _; rfl
  | cons x xs ih =>
    intro seen hall
    have hx : hashable x = true := hall x (List.mem_cons_self _ _)
    have hxs : ∀ y ∈ xs, hashable y = true := fun y hy => hall y (List.mem_cons_of_mem _ hy)
    simp only [uniqAux, hx, if_true]
    by_cases hseen : seen.any (fun s => goEq s x) = true
    · rw [if_pos hseen, ih seen hxs]
      congr 1
      simp only [dedupSpec, List.filter_cons]
      have hpx : (! seen.any (fun s => goEq s x)) = false := by simp [hseen]
      rw [hpx]
      simp only [Bool.false_eq_true, if_false, List.filter_filter]
      refine (List.filter_congr fun y _ => ?_).symm
      by_cases hy : seen.any (fun s => goEq s y) = true
      · simp [hy]
      · have hxy : goEq x y = false := by
          by_contra hcon
          rw [Bool.not_eq_false] at hcon
          rcases List.any_eq_true.mp hseen with ⟨s, hs, hsx⟩
          exact hy (List.any_eq_true.mpr ⟨s, hs, goEq_trans hsx hcon⟩)
        simp [hy, hxy]
    · rw [if_neg hseen, ih (x :: seen) hxs]
      simp only [dedupSpec, List.filter_cons]
      have hpx : (! seen.any (fun s => goEq s x)) = true := by
        simpa using hseen
      rw [hpx]
      simp only [if_true, List.filter_filter]
      congr 1
      refine congrArg (List.cons x) (List.filter_congr fun y _ => ?_)
      simp only [List.any_cons, Bool.not_or]
      exact Bool.and_comm _ _

/-- The `uniq` loop faults as soon as any element is unhashable. -/
theorem uniqAux_unhashable (xs : List GoVal) :
    ∀ seen : List GoVal, (∃ x ∈ xs, hashable x = false) →
      uniqAux seen xs = .error "hash of unhashable type" := by
  induction xs with
  | nil =>
    rintro seen ⟨x, hx, -⟩
    exact absurd hx (List.not_mem_nil x)
  | cons x xs ih =>
    rintro seen ⟨y, hy, hyh⟩
    by_cases hxh : hashable x = true
    · have hmem : y ∈ xs := by
        rcases List.mem_cons.mp hy with rfl | hmem
        · exact absurd hxh (by simp [hyh])
        · exact hmem
      simp only [uniqAux, hxh, if_true]
      split
      · exact ih seen ⟨y, hmem, hyh⟩
      · rw [ih (x :: seen) ⟨y, hmem, hyh⟩]
    · simp only [Bool.not_eq_true] at hxh
      simp [uniqAux, hxh]

/-- C9 counterexample: `uniq` on a sequence whose elements are
themselves sequences faults (`hash of unhashable type`, a runtime panic
in Go) instead of deduplicating by deep equality — the claim's "never
fails" and "sequences and mappings as elements" are both refuted. -/
theorem uniq_unhashable_counterexample :
    uniqGo (GoVal.vList [GoVal.vList [GoVal.vInt 1], GoVal.vList [GoVal.vInt 1]]) =
        .error "hash of unhashable type" ∧
      ∀ r, uniqGo (GoVal.vList [GoVal.vList [GoVal.vInt 1], GoVal.vList [GoVal.vInt 1]]) ≠
        .ok r := by
  have herr : uniqGo (GoVal.vList [GoVal.vList [GoVal.vInt 1], GoVal.vList [GoVal.vInt 1]]) =
      .error "hash of unhashable type" := rfl
  refine ⟨herr, fun r hr => ?_⟩
  rw [herr] at hr
  exact Except.noConfusion hr

/-- C9 amended: `uniq` deduplicates stably, first occurrence wins, but
by Go interface equality over *hashable* elements (scalar kinds); when
an all-hashable sequence is given it returns the first-occurrence
deduplication, and whenever any element is a sequence or a mapping it
faults with a `hash of unhashable type` runtime panic rather than never
failing. -/
theorem uniq_goeq_amended :
    (∀ xs : List GoVal, (∀ x ∈ xs, hashable x = true) →
        uniqGo (GoVal.vList xs) = .ok (dedupSpec xs)) ∧
      (∀ xs : List GoVal, (∃ x ∈ xs, hashable x = false) →
        uniqGo (GoVal.vList xs) = .error "hash of unhashable type") := by
  constructor
  · intro xs hall
    have h := uniqAux_hashable xs [] hall
    simpa [uniqGo] using h
  · intro xs hex
    exact uniqAux_unhashable xs [] hex

/-- Witness for `uniq_goeq_amended`: hashable scalars deduplicate with
first occurrences kept in order. -/
theorem uniq_goeq_amended_witness :
    uniqGo (GoVal.vList [GoVal.vInt 1, GoVal.vInt 2, GoVal.vInt 1]) =
      .ok [GoVal.vInt 1, GoVal.vInt 2] :=
  uniq_goeq_amended.1 [GoVal.vInt 1, GoVal.vInt 2, GoVal.vInt 1] (by decide)

/-- C5: a caret constraint `^C` holds of a version `v` exactly when `v`
and `C` have equal major versions (in the `semver.Major` sense, after
`v`-prefix normalization) and `v ≥ C` in the `semver.Compare` order —
stated for every nonempty `C` free of printf error markers, together
with the specification's two concrete examples. -/
theorem semver_caret_equiv :
    (∀ (C v : String), C ≠ "" → containsSeq ['%', '!'] C.data = false →
        (semverCompare ("^" ++ C) v = true ↔
          (semverMajor (addV v.data) = semverMajor (addV C.data) ∧
            0 ≤ semverCompareRaw (addV v.data) (addV C.data)))) ∧
      semverCompare "^1.2.0" "1.3.5" = true ∧
      semverCompare "^1.2.0" "2.0.0" = false := by
  refine ⟨?_, rfl, rfl⟩
  intro C v hC hpc
  obtain ⟨b, rest, hbd⟩ : ∃ b rest, C.data = b :: rest := by
    cases hCd : C.data with
    | nil => exact absurd (String.ext hCd) hC
    | cons b rest => exact ⟨b, rest, rfl⟩
  have hdata : ("^" ++ C).data = '^' :: b :: rest := by
    rw [String.data_append, hbd]
    rfl
  rw [hbd] at hpc
  simp only [semverCompare, hdata, List.length_cons, Nat.succ_ne_zero, if_false]
  have hpre : isPrefixSeq ['%', '!'] ('^' :: b :: rest) = false := rfl
  have hcont : containsSeq ['%', '!'] ('^' :: b :: rest) = false := by
    rw [containsSeq, hpre, Bool.false_or, hpc]
  rw [hcont]
  simp only [Bool.false_eq_true, if_false]
  have hopcond : ¬ ((('^' : Char) = '>' ∧ b = '=') ∨ (('^' : Char) = '<' ∧ b = '=') ∨
      (('^' : Char) = '=' ∧ b = '=') ∨ (('^' : Char) = '!' ∧ b = '=')) := by
    rintro (⟨h, -⟩ | ⟨h, -⟩ | ⟨h, -⟩ | ⟨h, -⟩) <;> exact absurd h (by decide)
  rw [if_neg hopcond]
  simp only []
  rw [if_neg (List.cons_ne_nil b rest)]
  simp only [← hbd]
  by_cases hm : semverMajor (addV C.data) = semverMajor (addV v.data)
  · rw [if_neg (by simpa using hm)]
    simp [hm, ge_iff_le]
  · rw [if_pos (by simpa using hm)]
    simp only [Bool.false_eq_true, false_iff]
    rintro ⟨heq, -⟩
    exact hm heq.symm

/-- Witness for `semver_caret_equiv` at `C = "1.2.0"`, `v = "1.3.5"`. -/
theorem semver_caret_equiv_witness :
    semverCompare "^1.2.0" "1.3.5" = true ↔
      (semverMajor (addV "1.3.5".data) = semverMajor (addV "1.2.0".data) ∧
        0 ≤ semverCompareRaw (addV "1.3.5".data) (addV "1.2.0".data)) :=
  semver_caret_equiv.1 "1.2.0" "1.3.5" (by decide) (by decide)

end Tmpl
